import Mathlib

/-
Verification of the scriptint codec, the relative-locktime decoder and the
ASM parser of rust-bitcoin-scriptexec (src/timelock_utils.rs and
src/parse_utils.rs), as a shallow embedding in Lean 4.

Machine integers are modelled as follows: `u8` byte values are `Nat`
(kept `< 256` by the byte-producing functions), `i64` values are `Int`
with explicit two's-complement wrapping (`wrap64`) at every operation
where the Rust code performs 64-bit arithmetic, and `usize` lengths are
`Nat`.  A Rust function that can panic (an `assert!` or an out-of-bounds
index) is modelled with an `Option` layer where the panic is reachable:
`none` is the panic.  Fallible functions return `Except`.
-/

set_option maxHeartbeats 1000000
set_option maxRecDepth 8000

namespace ScriptExec

/-- Two's-complement wrap into the `i64` range `[-2^63, 2^63)`;
`9223372036854775808 = 2^63` and `18446744073709551616 = 2^64`. -/
def wrap64 (x : Int) : Int :=
  (x + 9223372036854775808) % 18446744073709551616 - 9223372036854775808

/-- The `i64` shift-left `x << k` (bit pattern shift, wrapping). -/
def i64Shl (x : Int) (k : Nat) : Int :=
  wrap64 (x * 2 ^ k)

/-- The unsigned 64-bit bit pattern of an `i64` value. -/
def toU64 (x : Int) : Nat :=
  (x % 18446744073709551616).toNat

/-- The `i64` bitwise AND `x & y`, computed on the 64-bit bit patterns. -/
def i64And (x y : Int) : Int :=
  wrap64 (Int.ofNat (toU64 x &&& toU64 y))

/-- Ways parsing script integers might fail (`ScriptIntError` in
src/timelock_utils.rs). -/
inductive ScriptIntError where
  | NonMinimalPush : ScriptIntError
  | NumericOverflow : ScriptIntError
deriving DecidableEq

/-- Modelled from the spec: `crate::ExecError` is not among the provided
sources; the spec names the two variants the codec errors are mapped
into at the boundary (`MinimalData`, `ScriptIntNumericOverflow`). -/
inductive ExecError where
  | MinimalData : ExecError
  | ScriptIntNumericOverflow : ExecError
deriving DecidableEq

/-- `scriptint_parse` from src/timelock_utils.rs: little-endian
accumulate all bytes with `i64` arithmetic, then if the top bit of the
last byte is set, mask it off and negate.  The caller guarantees `v` is
not empty; on `[]` the Rust index `v[v.len() - 1]` would panic, here the
`getLast?.getD 0` default is never consulted by any caller. -/
def scriptint_parse (v : List Nat) : Int :=
  let p := v.foldl
    (fun (q : Int × Nat) n => (wrap64 (q.1 + i64Shl (Int.ofNat n) q.2), q.2 + 8))
    ((0 : Int), (0 : Nat))
  if (v.getLast?.getD 0) &&& 128 ≠ 0 then
    wrap64 (-(i64And p.1 (wrap64 (i64Shl 1 (p.2 - 1) - 1))))
  else
    p.1

/-- `read_scriptint_size` from src/timelock_utils.rs.  The leading
`assert!(max_size <= 8)` panics when violated: the panic is modelled as
`none`, every non-panicking run is `some` of the Rust `Result`. -/
def read_scriptint_size (v : List Nat) (max_size : Nat) (minimal : Bool) :
    Option (Except ScriptIntError Int) :=
  if max_size ≤ 8 then
    some (
      if v.length > max_size then Except.error ScriptIntError.NumericOverflow
      else if v = [] then Except.ok 0
      else if minimal then
        match v.getLast? with
        | none => Except.ok 0
        | some last =>
          if last &&& 127 = 0 ∧ (v.length ≤ 1 ∨ v.getD (v.length - 2) 0 &&& 128 = 0) then
            Except.error ScriptIntError.NonMinimalPush
          else Except.ok (scriptint_parse v)
      else Except.ok (scriptint_parse v))
  else none

/-- `read_scriptint` from src/timelock_utils.rs: thin wrapper mapping the
codec's errors onto the broader `ExecError` taxonomy. -/
def read_scriptint (item : List Nat) (size : Nat) (minimal : Bool) :
    Option (Except ExecError Int) :=
  (read_scriptint_size item size minimal).map (fun r =>
    r.mapError (fun e =>
      match e with
      | ScriptIntError.NonMinimalPush => ExecError.MinimalData
      | ScriptIntError.NumericOverflow => ExecError.ScriptIntNumericOverflow))

/-- The `while abs > 0xFF` loop and tail of `write_scriptint` from
src/timelock_utils.rs, with `abs` the remaining magnitude and `neg` the
sign.  Returns the list of bytes written (index 0 first); the Rust code
writes them at `out[len]` for `len = 0, 1, 2, ...`, so element `i` of
this list is the write at buffer index `i`. -/
def write_loop (abs : Nat) (neg : Bool) : List Nat :=
  if 255 < abs then
    (abs &&& 255) :: write_loop (abs >>> 8) neg
  else if abs &&& 128 ≠ 0 then
    [abs, if neg then 128 else 0]
  else
    [abs ||| (if neg then 128 else 0)]
termination_by abs
decreasing_by
  rename_i h
  simp only [Nat.shiftRight_eq_div_pow]
  exact Nat.div_lt_self (by omega) (by norm_num)

/-- `write_scriptint` from src/timelock_utils.rs: zero writes no bytes,
otherwise the loop runs on `n.unsigned_abs()` with the sign of `n`.
The returned list is the sequence of bytes written into the 8-byte
buffer; its length is the `usize` the Rust function returns. -/
def write_scriptint (n : Int) : List Nat :=
  if n = 0 then [] else write_loop n.natAbs (decide (n < 0))

/-- `LockTime` of the `bitcoin` crate (external collaborator): tagged
union of a block-height count and a time in 512-second units, both
16-bit payloads. -/
inductive LockTime where
  | blocks : Nat → LockTime
  | time : Nat → LockTime
deriving DecidableEq

/-- `from_num` from src/timelock_utils.rs: `u32::try_from` guard, then
the BIP-68 disable flag `0x80000000`, then the type flag `0x00400000`
selecting time (512-second units) versus block height on the low 16
bits (`int as u16`). -/
def from_num (num : Int) : Option LockTime :=
  if 0 ≤ num ∧ num ≤ 4294967295 then
    let int : Nat := num.toNat
    if int &&& 2147483648 ≠ 0 then none
    else if int &&& 4194304 > 0 then some (LockTime.time (int % 65536))
    else some (LockTime.blocks (int % 65536))
  else none

/-- The comment truncation of `iter_words` in src/parse_utils.rs:
`line.splitn(2, pat).next().unwrap()`, the prefix of the line before the
first occurrence of the marker `pat` (the whole line when absent). -/
def beforeMarker (pat : List Char) : List Char → List Char
  | [] => []
  | c :: rest => if pat.isPrefixOf (c :: rest) then [] else c :: beforeMarker pat rest

/-- Index of the first occurrence of `pat` (the length of the list when
absent); spec-side helper used to state the tokenizer claim. -/
def firstIdxOf (pat : List Char) : List Char → Nat
  | [] => 0
  | c :: rest => if pat.isPrefixOf (c :: rest) then 0 else 1 + firstIdxOf pat rest

/-- Spec-side line content: the prefix of the line before the first `#`
and before the first `//`, whichever marker occurs first. -/
def spec_line_content (line : List Char) : List Char :=
  line.take (min (firstIdxOf ['#'] line) (firstIdxOf ['/', '/'] line))

/-- `str::split_whitespace` (Rust standard library): split on runs of
whitespace, yielding no empty tokens; `acc` holds the reversed current
token. -/
def splitWsAux : List Char → List Char → List (List Char)
  | [], acc => if acc = [] then [] else [acc.reverse]
  | c :: rest, acc =>
    if c.isWhitespace then
      if acc = [] then splitWsAux rest [] else acc.reverse :: splitWsAux rest []
    else splitWsAux rest (c :: acc)

def splitWs (s : List Char) : List (List Char) := splitWsAux s []

/-- The per-line body of `iter_words` in src/parse_utils.rs: truncate at
the first `#`, then at the first `//`, then split on whitespace. -/
def line_words (line : List Char) : List (List Char) :=
  splitWs (beforeMarker ['/', '/'] (beforeMarker ['#'] line))

/-- `iter_words` from src/parse_utils.rs over an input already split
into lines (`str::lines` is the standard library): every word paired
with its zero-based `(line_index, word_index)` position. -/
def iter_words (asmLines : List (List Char)) : List ((Nat × Nat) × List Char) :=
  asmLines.enum.flatMap (fun p =>
    (line_words p.2).enum.map (fun q => ((p.1, q.1), q.2)))

/-- Modelled from the spec: the strict hex-to-bytes iterator of the
`hex_conservative` collaborator crate accepts only hex digits and fails
on odd length; value of one hex digit. -/
def hexDigitVal (c : Char) : Option Nat :=
  if '0' ≤ c ∧ c ≤ '9' then some (c.toNat - 48)
  else if 'a' ≤ c ∧ c ≤ 'f' then some (c.toNat - 87)
  else if 'A' ≤ c ∧ c ≤ 'F' then some (c.toNat - 55)
  else none

/-- Modelled from the spec: strict hex decoding (`try_parse_raw_hex` in
src/parse_utils.rs built on the external byte iterator): `none` exactly
when the length is odd or a character is not a hex digit; the empty
string decodes to zero bytes. -/
def hexDecode : List Char → Option (List Nat)
  | [] => some []
  | [_] => none
  | c1 :: c2 :: rest =>
    match hexDigitVal c1, hexDigitVal c2, hexDecode rest with
    | some hi, some lo, some bs => some ((16 * hi + lo) :: bs)
    | _, _, _ => none

/-- Modelled from the spec: canonical decimal suffix of an
`OP_PUSHBYTES_n` mnemonic (digits only, no leading zero). -/
def parseDecNat (w : List Char) : Option Nat :=
  if w = [] ∨ ¬ w.all (fun c => c.isDigit) ∨ (w.head? = some '0' ∧ 1 < w.length) then none
  else some (w.foldl (fun a c => 10 * a + (c.toNat - 48)) 0)

/-- `i64::from_str` (Rust standard library): optional sign, one or more
decimal digits, value within the `i64` range. -/
def parse_i64 (w : List Char) : Option Int :=
  let sd : Int × List Char :=
    match w with
    | '+' :: rest => (1, rest)
    | '-' :: rest => (-1, rest)
    | _ => (1, w)
  if sd.2 = [] ∨ ¬ sd.2.all (fun c => c.isDigit) then none
  else
    let v : Nat := sd.2.foldl (fun a c => 10 * a + (c.toNat - 48)) 0
    if sd.1 = 1 then
      if v ≤ 9223372036854775807 then some (v : Int) else none
    else
      if v ≤ 9223372036854775808 then some (-(v : Int)) else none

/-- Modelled from the spec: the external opcode-name table
(`opcode_from_name`), restricted to the byte-push and push-data opcodes
plus a sample of ordinary opcodes; every other word is unknown.  Opcodes
are their byte values: `OP_PUSHBYTES_n` is `n`, `OP_PUSHDATA1/2/4` are
`0x4c/0x4d/0x4e`. -/
def from_str (w : List Char) : Option Nat :=
  if w.take 13 = "OP_PUSHBYTES_".toList then
    match parseDecNat (w.drop 13) with
    | some n => if n ≤ 75 then some n else none
    | none => none
  else if w = "OP_PUSHDATA1".toList then some 76
  else if w = "OP_PUSHDATA2".toList then some 77
  else if w = "OP_PUSHDATA4".toList then some 78
  else if w = "OP_1NEGATE".toList then some 79
  else if w = "OP_RESERVED".toList then some 80
  else if w = "OP_NOP".toList then some 97
  else if w = "OP_DUP".toList then some 118
  else if w = "OP_EQUAL".toList then some 135
  else if w = "OP_CHECKSIG".toList then some 172
  else none

/-- Modelled from the spec: capability predicate of the opcode table,
true for the direct byte-push opcodes (byte values 0 to 75). -/
def is_push_bytes (op : Nat) : Bool := op ≤ 75

/-- Modelled from the spec: capability predicate of the opcode table,
true for `OP_PUSHDATA1/2/4`. -/
def is_push_data (op : Nat) : Bool := op = 76 || op = 77 || op = 78

/-- Modelled from the spec: the PUSHDATA1 numeric threshold constant. -/
def OP_PUSHDATA1_CODE : Nat := 76

/-- Modelled from the spec: the builder's minimal-encoded data push
(`Builder::push_slice` of the `bitcoin` collaborator crate): direct
length byte below the PUSHDATA1 threshold, else a PUSHDATA1/2/4 header
with a little-endian length. -/
def push_slice_enc (data : List Nat) : List Nat :=
  if data.length < 76 then data.length :: data
  else if data.length ≤ 255 then 76 :: data.length :: data
  else if data.length ≤ 65535 then 77 :: (data.length % 256) :: (data.length / 256) :: data
  else 78 :: (data.length % 256) :: (data.length / 256 % 256) :: (data.length / 65536 % 256)
    :: (data.length / 16777216 % 256) :: data

/-- Modelled from the spec: the builder's minimal integer push
(`Builder::push_int` of the `bitcoin` collaborator crate): the one-byte
opcodes for `-1` and `1..16`, the empty-push opcode for `0`, otherwise a
data push of the scriptint encoding. -/
def push_int_enc (n : Int) : List Nat :=
  if n = -1 ∨ (1 ≤ n ∧ n ≤ 16) then [(n + 80).toNat]
  else if n = 0 then [0]
  else push_slice_enc (write_scriptint n)

/-- The angle-bracket stripping of `parse_asm` in src/parse_utils.rs:
one leading `<` and one trailing `>` when both are present. -/
def stripAngle (w : List Char) : List Char :=
  if w.head? = some '<' ∧ w.getLast? = some '>' then (w.drop 1).dropLast else w

/-- The `0x` prefix stripping of `parse_asm` in src/parse_utils.rs. -/
def strip0x (w : List Char) : List Char :=
  if w.take 2 = "0x".toList then w.drop 2 else w

/-- `AsmParseErrorKind` from src/parse_utils.rs. -/
inductive AsmParseErrorKind where
  | UnexpectedEOF : AsmParseErrorKind
  | UnknownInstruction : AsmParseErrorKind
  | InvalidHex : AsmParseErrorKind
  | PushExceedsMaxSize : AsmParseErrorKind
  | NonMinimalBytePush : AsmParseErrorKind
deriving DecidableEq

/-- `ParseAsmError` from src/parse_utils.rs: the position of the word
that caused the error and the kind. -/
structure ParseAsmError where
  position : Nat × Nat
  kind : AsmParseErrorKind
deriving DecidableEq

/-- The word loop of `parse_asm` from src/parse_utils.rs, over the
remaining word sequence and the script bytes built so far: the `OP_0`
special case, then opcode lookup (with the byte-push/push-data path
consuming the next word as hex data and re-deriving the minimal push
opcode), then integer and hex fallbacks.  The `PushBytes` length bound
of the `bitcoin` crate (at most `u32::MAX` bytes) is the
`≤ 4294967295` checks, and the four-way minimal-opcode match returns
`PushExceedsMaxSize` at the data token for payloads of `2^32` bytes or
more. -/
def parse_go : List ((Nat × Nat) × List Char) → List Nat →
    Except ParseAsmError (List Nat)
  | [], script => Except.ok script
  | ((pos, word)) :: ws, script =>
    if word = "OP_0".toList then parse_go ws (script ++ [0])
    else
      match from_str word with
      | some op =>
        if is_push_bytes op || is_push_data op then
          match ws with
          | [] => Except.error ⟨pos, AsmParseErrorKind.UnexpectedEOF⟩
          | (next, push) :: ws2 =>
            match hexDecode push with
            | none => Except.error ⟨next, AsmParseErrorKind.InvalidHex⟩
            | some buf =>
              if buf.length < 4294967296 then
                let expected : Nat :=
                  if buf.length < 76 then buf.length
                  else if buf.length < 256 then 76
                  else if buf.length < 65536 then 77
                  else 78
                if op ≠ expected then
                  Except.error ⟨pos, AsmParseErrorKind.NonMinimalBytePush⟩
                else if buf.length ≤ 4294967295 then
                  parse_go ws2 (script ++ push_slice_enc buf)
                else Except.error ⟨next, AsmParseErrorKind.PushExceedsMaxSize⟩
              else Except.error ⟨next, AsmParseErrorKind.PushExceedsMaxSize⟩
        else parse_go ws (script ++ [op])
      | none =>
        match parse_i64 (stripAngle word) with
        | some i => parse_go ws (script ++ push_int_enc i)
        | none =>
          match hexDecode (strip0x (stripAngle word)) with
          | none => Except.error ⟨pos, AsmParseErrorKind.UnknownInstruction⟩
          | some buf =>
            if buf.length ≤ 4294967295 then parse_go ws (script ++ push_slice_enc buf)
            else Except.error ⟨pos, AsmParseErrorKind.PushExceedsMaxSize⟩

/-- `parse_asm` from src/parse_utils.rs, over the input text given as
its list of lines: run the word loop on the tokenizer's output with an
empty script buffer. -/
def parse_asm (asmLines : List (List Char)) : Except ParseAsmError (List Nat) :=
  parse_go (iter_words asmLines) []

/-- Little-endian base-256 value of a byte list (proof-side helper). -/
def le_val : List Nat → Nat
  | [] => 0
  | b :: bs => b + 256 * le_val bs

/-- The encoding `v` passes the minimality check of `read_scriptint_size`
(proof-side helper): either the last byte has a payload bit below the
sign bit, or the trailing sign byte is structurally required because the
second-to-last byte has its top bit set. -/
def MinimalEnc (v : List Nat) : Prop :=
  (v.getLast?.getD 0) &&& 127 ≠ 0 ∨ (2 ≤ v.length ∧ v.getD (v.length - 2) 0 &&& 128 ≠ 0)

theorem write_loop_eq (abs : Nat) (neg : Bool) :
    write_loop abs neg =
      if 255 < abs then (abs &&& 255) :: write_loop (abs >>> 8) neg
      else if abs &&& 128 ≠ 0 then [abs, if neg then 128 else 0]
      else [abs ||| (if neg then 128 else 0)] := by
  rw [write_loop]

theorem and128_eq_zero_iff : ∀ a < 256, (a &&& 128 = 0 ↔ a < 128) := by decide

theorem or128_eq : ∀ a < 128, a ||| 128 = a + 128 := by decide

theorem and127_self : ∀ a < 128, a &&& 127 = a := by decide

theorem add128_and127 : ∀ a < 128, (a + 128) &&& 127 = a := by decide

theorem and255_mod (n : Nat) : n &&& 255 = n % 256 := by
  have h := Nat.and_pow_two_sub_one_eq_mod n 8
  norm_num at h
  exact h

theorem write_loop_ne_nil (abs : Nat) (neg : Bool) : write_loop abs neg ≠ [] := by
  rw [write_loop_eq]
  split
  · simp
  · split <;> simp

theorem getLastD_cons (b : Nat) (w : List Nat) (h : w ≠ []) :
    ((b :: w).getLast?.getD 0) = (w.getLast?.getD 0) := by
  cases w with
  | nil => exact absurd rfl h
  | cons c t => rw [List.getLast?_cons_cons]

theorem getLastD_pair (a b : Nat) : (([a, b] : List Nat).getLast?.getD 0) = b := by
  rw [List.getLast?_cons_cons]; rfl

theorem write_loop_spec : ∀ abs, 0 < abs → ∀ neg : Bool,
    (neg = true → le_val (write_loop abs neg) = abs + 2 ^ (8 * (write_loop abs neg).length - 1)) ∧
    (neg = false → le_val (write_loop abs neg) = abs) ∧
    abs < 2 ^ (8 * (write_loop abs neg).length - 1) ∧
    (∀ b ∈ write_loop abs neg, b < 256) ∧
    (neg = true → 128 ≤ (write_loop abs neg).getLast?.getD 0) ∧
    (neg = false → (write_loop abs neg).getLast?.getD 0 < 128) ∧
    (write_loop abs neg).getLast?.getD 0 < 256 ∧
    MinimalEnc (write_loop abs neg) := by
  intro abs
  induction abs using Nat.strong_induction_on with
  | _ abs ih =>
    intro hpos neg
    by_cases h255 : 255 < abs
    · -- loop case
      have hdiv : abs >>> 8 = abs / 256 := by
        simp [Nat.shiftRight_eq_div_pow]
      have hlt' : abs >>> 8 < abs := by
        rw [hdiv]; exact Nat.div_lt_self (by omega) (by norm_num)
      have hpos' : 0 < abs >>> 8 := by
        rw [hdiv]; exact Nat.div_pos (by omega) (by norm_num)
      obtain ⟨ihn, ihp, ihlt, ihb, ihlastn, ihlastp, ihlast256, ihmin⟩ :=
        ih (abs >>> 8) hlt' hpos' neg
      have hne : write_loop (abs >>> 8) neg ≠ [] := write_loop_ne_nil _ _
      set w := write_loop (abs >>> 8) neg with hw
      have hL : 1 ≤ w.length := List.length_pos.mpr hne
      have hv : write_loop abs neg = (abs &&& 255) :: w := by
        rw [write_loop_eq, if_pos h255]
      have hlen : (write_loop abs neg).length = w.length + 1 := by
        rw [hv]; simp
      have hexp : 2 ^ (8 * (w.length + 1) - 1) = 256 * 2 ^ (8 * w.length - 1) := by
        rw [show 8 * (w.length + 1) - 1 = (8 * w.length - 1) + 8 by omega, pow_add]
        ring
      have hmod : abs &&& 255 = abs % 256 := and255_mod abs
      have hlast_eq : (write_loop abs neg).getLast?.getD 0 = w.getLast?.getD 0 := by
        rw [hv]; exact getLastD_cons _ _ hne
      refine ⟨?_, ?_, ?_, ?_, ?_, ?_, ?_, ?_⟩
      · intro ht
        rw [hlen, hv]
        simp only [le_val]
        rw [ihn ht, hmod, hexp]
        rw [hdiv]
        omega
      · intro hf
        rw [hv]
        simp only [le_val]
        rw [ihp hf, hmod, hdiv]
        omega
      · rw [hlen, hexp]
        rw [hdiv] at ihlt
        omega
      · rw [hv]
        intro b hb
        rcases List.mem_cons.mp hb with h | h
        · subst h; rw [hmod]; omega
        · exact ihb b h
      · intro ht; rw [hlast_eq]; exact ihlastn ht
      · intro hf; rw [hlast_eq]; exact ihlastp hf
      · rw [hlast_eq]; exact ihlast256
      · rcases ihmin with hl | ⟨h2, hpen⟩
        · exact Or.inl (by rw [hlast_eq]; exact hl)
        · refine Or.inr ⟨by rw [hlen]; omega, ?_⟩
          rw [hv]
          simp only [List.length_cons]
          rw [show w.length + 1 - 2 = (w.length - 2) + 1 by omega, List.getD_cons_succ]
          exact hpen
    · -- base case, abs ≤ 255
      have h256 : abs < 256 := by omega
      by_cases h128 : abs &&& 128 ≠ 0
      · -- two-byte tail
        have habs128 : 128 ≤ abs := by
          have := and128_eq_zero_iff abs h256
          omega
        cases neg with
        | true =>
          have hv : write_loop abs true = [abs, 128] := by
            rw [write_loop_eq, if_neg h255, if_pos h128]
            simp
          rw [hv]
          refine ⟨?_, by simp, ?_, ?_, ?_, by simp, ?_, ?_⟩
          · intro _
            simp only [le_val, List.length_cons, List.length_nil]
            norm_num
          · simp only [List.length_cons, List.length_nil]
            norm_num
            omega
          · intro b hb
            rcases List.mem_cons.mp hb with h | h
            · omega
            · rcases List.mem_cons.mp h with h' | h'
              · omega
              · simp at h'
          · intro _; rw [getLastD_pair]
          · rw [getLastD_pair]; norm_num
          · exact Or.inr ⟨by simp, by simpa using h128⟩
        | false =>
          have hv : write_loop abs false = [abs, 0] := by
            rw [write_loop_eq, if_neg h255, if_pos h128]
            simp
          rw [hv]
          refine ⟨by simp, ?_, ?_, ?_, by simp, ?_, ?_, ?_⟩
          · intro _
            simp only [le_val]
            omega
          · simp only [List.length_cons, List.length_nil]
            norm_num
            omega
          · intro b hb
            rcases List.mem_cons.mp hb with h | h
            · omega
            · rcases List.mem_cons.mp h with h' | h'
              · omega
              · simp at h'
          · intro _; rw [getLastD_pair]; norm_num
          · rw [getLastD_pair]; norm_num
          · exact Or.inr ⟨by simp, by simpa using h128⟩
      · -- one-byte tail
        push_neg at h128
        have habs128 : abs < 128 := by
          have := and128_eq_zero_iff abs h256
          omega
        cases neg with
        | true =>
          have hor : abs ||| 128 = abs + 128 := or128_eq abs habs128
          have hv : write_loop abs true = [abs + 128] := by
            rw [write_loop_eq, if_neg h255, if_neg (by simpa using h128)]
            simp [hor]
          rw [hv]
          have hand : (abs + 128) &&& 127 = abs := add128_and127 abs habs128
          refine ⟨?_, by simp, ?_, ?_, ?_, by simp, ?_, ?_⟩
          · intro _
            simp only [le_val, List.length_cons, List.length_nil]
            norm_num
          · simp only [List.length_cons, List.length_nil]
            norm_num
            omega
          · intro b hb
            rcases List.mem_cons.mp hb with h | h
            · omega
            · simp at h
          · intro _
            show 128 ≤ abs + 128
            omega
          · show abs + 128 < 256
            omega
          · exact Or.inl (by
              show (([abs + 128] : List Nat).getLast?.getD 0) &&& 127 ≠ 0
              have h' : (([abs + 128] : List Nat).getLast?.getD 0) = abs + 128 := rfl
              rw [h', hand]
              omega)
        | false =>
          have hv : write_loop abs false = [abs] := by
            rw [write_loop_eq, if_neg h255, if_neg (by simpa using h128)]
            simp
          rw [hv]
          have hand : abs &&& 127 = abs := and127_self abs habs128
          refine ⟨by simp, ?_, ?_, ?_, by simp, ?_, ?_, ?_⟩
          · intro _
            simp [le_val]
          · simp only [List.length_cons, List.length_nil]
            norm_num
            omega
          · intro b hb
            rcases List.mem_cons.mp hb with h | h
            · omega
            · simp at h
          · intro _
            show abs < 128
            omega
          · show abs < 256
            omega
          · exact Or.inl (by
              show (([abs] : List Nat).getLast?.getD 0) &&& 127 ≠ 0
              have h' : (([abs] : List Nat).getLast?.getD 0) = abs := rfl
              rw [h', hand]
              omega)

theorem write_loop_length (k : Nat) : ∀ (abs : Nat) (neg : Bool), abs < 2 ^ (8 * k + 7) →
    (write_loop abs neg).length ≤ k + 1 := by
  induction k with
  | zero =>
    intro abs neg h
    norm_num at h
    have h128 : abs &&& 128 = 0 := by
      have := and128_eq_zero_iff abs (by omega)
      omega
    rw [write_loop_eq, if_neg (by omega), if_neg (by simpa using h128)]
    simp
  | succ k ih =>
    intro abs neg h
    by_cases h255 : 255 < abs
    · rw [write_loop_eq, if_pos h255]
      simp only [List.length_cons]
      have hdiv : abs >>> 8 = abs / 256 := by simp [Nat.shiftRight_eq_div_pow]
      have hpow : 2 ^ (8 * (k + 1) + 7) = 256 * 2 ^ (8 * k + 7) := by
        rw [show 8 * (k + 1) + 7 = (8 * k + 7) + 8 by omega, pow_add]
        ring
      have hsm : abs >>> 8 < 2 ^ (8 * k + 7) := by
        rw [hdiv]
        omega
      have := ih (abs >>> 8) neg hsm
      omega
    · rw [write_loop_eq, if_neg h255]
      split <;> simp

theorem wrap64_eq_self (x : Int) (h1 : -9223372036854775808 ≤ x)
    (h2 : x < 9223372036854775808) : wrap64 x = x := by
  unfold wrap64
  omega

theorem foldl_step_eq : ∀ (v : List Nat) (a : Int) (s : Nat),
    0 ≤ a → a + 2 ^ s * (le_val v : Int) < 9223372036854775808 →
    v.foldl (fun (q : Int × Nat) n => (wrap64 (q.1 + i64Shl (Int.ofNat n) q.2), q.2 + 8)) (a, s)
      = (a + 2 ^ s * (le_val v : Int), s + 8 * v.length) := by
  intro v
  induction v with
  | nil =>
    intro a s h1 h2
    simp [le_val]
  | cons b bs ih =>
    intro a s h1 h2
    have hle : ((le_val (b :: bs) : Nat) : Int) = (b : Int) + 256 * (le_val bs : Int) := by
      push_cast [le_val]
      ring
    rw [hle] at h2
    have hPB : (0 : Int) ≤ 2 ^ s * (b : Int) := by positivity
    have hPL : (0 : Int) ≤ 2 ^ s * (le_val bs : Int) := by positivity
    have hsplit : a + 2 ^ s * ((b : Int) + 256 * (le_val bs : Int))
        = a + 2 ^ s * (b : Int) + 256 * (2 ^ s * (le_val bs : Int)) := by ring
    rw [hsplit] at h2
    have hb63 : 2 ^ s * (b : Int) < 9223372036854775808 := by linarith
    have hshl : i64Shl (Int.ofNat b) s = 2 ^ s * (b : Int) := by
      unfold i64Shl
      rw [Int.ofNat_eq_natCast, show ((b : Int) * 2 ^ s) = 2 ^ s * (b : Int) from by ring]
      exact wrap64_eq_self _ (by linarith) hb63
    simp only [List.foldl_cons]
    have hstep : wrap64 (a + i64Shl (Int.ofNat b) s) = a + 2 ^ s * (b : Int) := by
      rw [hshl]
      exact wrap64_eq_self _ (by linarith) (by linarith)
    rw [hstep]
    have hp8 : ((2 : Int) ^ (s + 8)) * (le_val bs : Int) = 256 * (2 ^ s * (le_val bs : Int)) := by
      rw [pow_add]
      ring
    have ihh := ih (a + 2 ^ s * (b : Int)) (s + 8) (by linarith)
      (by rw [hp8]; linarith)
    rw [ihh]
    simp only [Prod.mk.injEq]
    constructor
    · rw [hle, hp8]
      ring
    · simp only [List.length_cons]
      omega

theorem read_size_ok (v : List Nat) (max_size : Nat) (hmax : max_size ≤ 8)
    (hlen : v.length ≤ max_size) (hne : v ≠ []) (hmin : MinimalEnc v) :
    read_scriptint_size v max_size true = some (Except.ok (scriptint_parse v)) := by
  obtain ⟨last, hlast⟩ : ∃ l, v.getLast? = some l := by
    cases hgl : v.getLast? with
    | none => exact absurd (List.getLast?_eq_none_iff.mp hgl) hne
    | some x => exact ⟨x, rfl⟩
  have hlastD : v.getLast?.getD 0 = last := by rw [hlast]; rfl
  have hncond : ¬(last &&& 127 = 0 ∧ (v.length ≤ 1 ∨ v.getD (v.length - 2) 0 &&& 128 = 0)) := by
    rintro ⟨hc1, hc2⟩
    rcases hmin with hl | ⟨h2, hpen⟩
    · rw [hlastD] at hl
      exact hl hc1
    · rcases hc2 with h | h
      · omega
      · exact hpen h
  rw [read_scriptint_size, if_pos hmax]
  rw [if_neg (by omega : ¬ v.length > max_size), if_neg hne]
  simp only [hlast]
  rw [if_neg hncond]
  rfl

theorem read_scriptint_of_size_ok (v : List Nat) (size : Nat) (minimal : Bool) (x : Int)
    (h : read_scriptint_size v size minimal = some (Except.ok x)) :
    read_scriptint v size minimal = some (Except.ok x) := by
  rw [read_scriptint, h]
  rfl

theorem toU64_natCast (x : Nat) (h : x < 18446744073709551616) : toU64 (x : Int) = x := by
  unfold toU64
  rw [Int.emod_eq_of_lt (by positivity) (by exact_mod_cast h)]
  exact Int.toNat_natCast x

theorem i64And_natCast (x y : Nat) (hx : x < 18446744073709551616)
    (hy : y < 18446744073709551616) (hxy : x &&& y < 9223372036854775808) :
    i64And (x : Int) (y : Int) = ((x &&& y : Nat) : Int) := by
  unfold i64And
  rw [toU64_natCast x hx, toU64_natCast y hy, Int.ofNat_eq_natCast]
  exact wrap64_eq_self _ (by omega) (by omega)

theorem parse_of_write (n : Int) (h0 : n ≠ 0) (h1 : -2147483647 ≤ n) (h2 : n ≤ 2147483647) :
    scriptint_parse (write_loop n.natAbs (decide (n < 0))) = n := by
  have habs_pos : 0 < n.natAbs := by omega
  obtain ⟨hleN, hleP, hlt, hbytes, hlastN, hlastP, hlast256, hmin⟩ :=
    write_loop_spec n.natAbs habs_pos (decide (n < 0))
  set v := write_loop n.natAbs (decide (n < 0)) with hv
  have hlen4 : v.length ≤ 4 := by
    rw [hv]
    apply write_loop_length 3
    norm_num
    omega
  have hlen1 : 1 ≤ v.length := List.length_pos.mpr (hv ▸ write_loop_ne_nil _ _)
  have hpowle : (2 : Nat) ^ (8 * v.length - 1) ≤ 2147483648 := by
    calc (2 : Nat) ^ (8 * v.length - 1) ≤ 2 ^ 31 :=
          Nat.pow_le_pow_right (by norm_num) (by omega)
      _ = 2147483648 := by norm_num
  by_cases hneg : n < 0
  · have hnegT : decide (n < 0) = true := by simp [hneg]
    have hleq : le_val v = n.natAbs + 2 ^ (8 * v.length - 1) := hleN hnegT
    have hlast128 : 128 ≤ v.getLast?.getD 0 := hlastN hnegT
    have hleB : le_val v < 4294967296 := by
      rw [hleq]
      omega
    have hfold := foldl_step_eq v 0 0 le_rfl (by push_cast; norm_num; omega)
    have hcond : v.getLast?.getD 0 &&& 128 ≠ 0 := by
      have := and128_eq_zero_iff (v.getLast?.getD 0) hlast256
      omega
    unfold scriptint_parse
    simp only [hfold]
    rw [if_pos hcond]
    have hsle : 8 * v.length - 1 ≤ 31 := by omega
    have hshl1 : i64Shl 1 (0 + 8 * v.length - 1) = ((2 : Int) ^ (8 * v.length - 1)) := by
      unfold i64Shl
      rw [one_mul, Nat.zero_add]
      apply wrap64_eq_self
      · exact le_trans (by norm_num : (-9223372036854775808 : Int) ≤ 0) (by positivity)
      · calc (2 : Int) ^ (8 * v.length - 1) ≤ 2 ^ 31 :=
              pow_le_pow_right₀ (by norm_num) hsle
          _ < 9223372036854775808 := by norm_num
    have hmaskN : ((2 : Int) ^ (8 * v.length - 1) - 1)
        = (((2 ^ (8 * v.length - 1) - 1 : Nat)) : Int) := by
      have hone : (1 : Nat) ≤ 2 ^ (8 * v.length - 1) := Nat.one_le_two_pow
      push_cast [hone]
      ring
    have hmask : wrap64 (i64Shl 1 (0 + 8 * v.length - 1) - 1)
        = (((2 ^ (8 * v.length - 1) - 1 : Nat)) : Int) := by
      rw [hshl1, hmaskN]
      apply wrap64_eq_self
      · omega
      · omega
    rw [hmask]
    have hzadd : (0 : Int) + 2 ^ (0 : Nat) * (le_val v : Int) = ((le_val v : Nat) : Int) := by
      norm_num
    rw [hzadd]
    have hand := i64And_natCast (le_val v) (2 ^ (8 * v.length - 1) - 1)
      (by omega) (by omega)
      (by
        have := Nat.and_le_right (n := le_val v) (m := 2 ^ (8 * v.length - 1) - 1)
        omega)
    rw [hand]
    have hnat : le_val v &&& (2 ^ (8 * v.length - 1) - 1) = n.natAbs := by
      rw [Nat.and_pow_two_sub_one_eq_mod, hleq, Nat.add_mod_right]
      exact Nat.mod_eq_of_lt hlt
    rw [hnat]
    rw [wrap64_eq_self _ (by omega) (by omega)]
    omega
  · have hnegF : decide (n < 0) = false := by simp [hneg]
    have hleq : le_val v = n.natAbs := hleP hnegF
    have hcond : ¬(v.getLast?.getD 0 &&& 128 ≠ 0) := by
      have h' := and128_eq_zero_iff (v.getLast?.getD 0) hlast256
      have h'' := hlastP hnegF
      omega
    have hfold := foldl_step_eq v 0 0 le_rfl (by push_cast; norm_num; omega)
    unfold scriptint_parse
    simp only [hfold]
    rw [if_neg hcond]
    rw [show (0 : Int) + 2 ^ (0 : Nat) * (le_val v : Int) = ((le_val v : Nat) : Int) from by norm_num]
    rw [hleq]
    omega

/-- C1: for every `i64` value `n` with `|n| ≤ 0x7FFFFFFF`, encoding `n`
with `write_scriptint` and decoding the bytes with `read_scriptint` at
max size 4 and `minimal = true` returns `Ok(n)`. -/
theorem scriptint_roundtrip (n : Int) (h1 : -2147483647 ≤ n) (h2 : n ≤ 2147483647) :
    read_scriptint (write_scriptint n) 4 true = some (Except.ok n) := by
  by_cases h0 : n = 0
  · subst h0
    rfl
  · have hv : write_scriptint n = write_loop n.natAbs (decide (n < 0)) := by
      rw [write_scriptint, if_neg h0]
    have habs_pos : 0 < n.natAbs := by omega
    obtain ⟨hleN, hleP, hlt, hbytes, hlastN, hlastP, hlast256, hmin⟩ :=
      write_loop_spec n.natAbs habs_pos (decide (n < 0))
    have hlen4 : (write_loop n.natAbs (decide (n < 0))).length ≤ 4 := by
      apply write_loop_length 3
      norm_num
      omega
    apply read_scriptint_of_size_ok
    rw [hv]
    rw [read_size_ok _ 4 (by norm_num) hlen4 (write_loop_ne_nil _ _) hmin]
    rw [parse_of_write n h0 h1 h2]

/-- C1 witness: the round-trip at the concrete input 100. -/
theorem scriptint_roundtrip_witness :
    read_scriptint (write_scriptint 100) 4 true = some (Except.ok 100) :=
  scriptint_roundtrip 100 (by norm_num) (by norm_num)

/-- C2: for every non-empty byte slice `v` with `v.len() ≤ max_size ≤ 8`,
`read_scriptint_size v max_size true` returns `Err(NonMinimalPush)`
exactly when the last byte with its sign bit masked off is zero and it
is not the case that `v` has at least two bytes with the top bit of the
second-to-last byte set; in particular `[0x00]` is rejected as
non-minimal and the empty slice decodes to `Ok(0)`. -/
theorem read_scriptint_size_minimality :
    (∀ (v : List Nat) (max_size : Nat), v ≠ [] → v.length ≤ max_size → max_size ≤ 8 →
      (∀ b ∈ v, b < 256) →
      (read_scriptint_size v max_size true = some (Except.error ScriptIntError.NonMinimalPush) ↔
        (v.getLast?.getD 0) &&& 127 = 0 ∧ ¬(2 ≤ v.length ∧ v.getD (v.length - 2) 0 &&& 128 ≠ 0))) ∧
    read_scriptint_size [0] 4 true = some (Except.error ScriptIntError.NonMinimalPush) ∧
    read_scriptint_size [] 4 true = some (Except.ok 0) := by
  refine ⟨?_, rfl, rfl⟩
  intro v max_size hne hlen hmax hb
  obtain ⟨last, hlast⟩ : ∃ l, v.getLast? = some l := by
    cases hgl : v.getLast? with
    | none => exact absurd (List.getLast?_eq_none_iff.mp hgl) hne
    | some x => exact ⟨x, rfl⟩
  rw [read_scriptint_size, if_pos hmax, if_neg (by omega : ¬ v.length > max_size), if_neg hne]
  simp only [hlast, Option.getD_some]
  by_cases hcond : last &&& 127 = 0 ∧ (v.length ≤ 1 ∨ v.getD (v.length - 2) 0 &&& 128 = 0)
  · rw [if_pos hcond]
    obtain ⟨hc1, hc2⟩ := hcond
    constructor
    · intro _
      refine ⟨hc1, ?_⟩
      rintro ⟨hl2, hpen⟩
      rcases hc2 with h | h
      · omega
      · exact hpen h
    · intro _
      rfl
  · rw [if_neg hcond]
    constructor
    · intro h
      exact absurd h (by simp)
    · rintro ⟨hc1, hc2⟩
      exfalso
      apply hcond
      refine ⟨hc1, ?_⟩
      by_cases hl1 : v.length ≤ 1
      · exact Or.inl hl1
      · right
        by_contra hpen0
        exact hc2 ⟨by omega, hpen0⟩

/-- C2 witness: `[0x00, 0x00]` within max size 2 is rejected as a
non-minimal push, via the general characterization. -/
theorem read_scriptint_size_minimality_witness :
    read_scriptint_size [0, 0] 2 true = some (Except.error ScriptIntError.NonMinimalPush) :=
  (read_scriptint_size_minimality.1 [0, 0] 2 (by decide) (by decide) (by decide)
    (by decide)).mpr (by decide)

/-- C3: `write_scriptint` encodes zero as zero bytes and produces the
sign-bit boundary vectors `255 ↦ [0xFF, 0x00]`, `-255 ↦ [0xFF, 0x80]`,
`127 ↦ [0x7F]`, `-128 ↦ [0x80, 0x80]`, with the stated lengths. -/
theorem write_scriptint_boundary_vectors :
    write_scriptint 0 = [] ∧
    write_scriptint 255 = [255, 0] ∧ (write_scriptint 255).length = 2 ∧
    write_scriptint (-255) = [255, 128] ∧ (write_scriptint (-255)).length = 2 ∧
    write_scriptint 127 = [127] ∧ (write_scriptint 127).length = 1 ∧
    write_scriptint (-128) = [128, 128] ∧ (write_scriptint (-128)).length = 2 := by
  have h255 : write_scriptint 255 = [255, 0] := by
    simp [write_scriptint, write_loop_eq] <;> decide
  have hm255 : write_scriptint (-255) = [255, 128] := by
    simp [write_scriptint, write_loop_eq] <;> decide
  have h127 : write_scriptint 127 = [127] := by
    simp [write_scriptint, write_loop_eq] <;> decide
  have hm128 : write_scriptint (-128) = [128, 128] := by
    simp [write_scriptint, write_loop_eq] <;> decide
  refine ⟨rfl, h255, by rw [h255]; rfl, hm255, by rw [hm255]; rfl, h127, by rw [h127]; rfl,
    hm128, by rw [hm128]; rfl⟩

/-- C4 counterexample: at `i64::MIN = -2^63` the writer performs nine
byte writes (indices 0 through 8), so it does attempt a ninth byte
outside the fixed 8-byte buffer, contradicting the claim. -/
theorem write_scriptint_min_nine_writes :
    (write_scriptint (-9223372036854775808)).length = 9 := by
  simp [write_scriptint, write_loop_eq] <;> decide

/-- C4 amended: for every `i64` value except `i64::MIN`, `write_scriptint`
stays within the 8-byte buffer, returning a used length of at most 8. -/
theorem write_scriptint_length_le_eight (n : Int)
    (h1 : -9223372036854775808 ≤ n) (h2 : n < 9223372036854775808)
    (h3 : n ≠ -9223372036854775808) :
    (write_scriptint n).length ≤ 8 := by
  by_cases h0 : n = 0
  · subst h0
    simp [write_scriptint]
  · rw [write_scriptint, if_neg h0]
    apply write_loop_length 7
    norm_num
    omega

/-- C4 witness: the amended bound at the concrete input 3. -/
theorem write_scriptint_length_le_eight_witness :
    (write_scriptint 3).length ≤ 8 :=
  write_scriptint_length_le_eight 3 (by norm_num) (by norm_num) (by norm_num)

/-- C9: `read_scriptint_size` with `max_size > 8` hits the
`assert!(max_size <= 8)` and panics (modelled as `none`) for every input
slice and minimality flag; for `max_size ≤ 8` the assertion never fires
and a value is returned. -/
theorem read_scriptint_size_assert (v : List Nat) (max_size : Nat) (minimal : Bool) :
    (8 < max_size → read_scriptint_size v max_size minimal = none) ∧
    (max_size ≤ 8 → (read_scriptint_size v max_size minimal).isSome = true) := by
  constructor
  · intro h
    rw [read_scriptint_size, if_neg (by omega)]
  · intro h
    rw [read_scriptint_size, if_pos h]
    rfl

/-- C9 witness: the assertion panic at `max_size = 9` and the normal
return at `max_size = 8`, on the slice `[0x00]`. -/
theorem read_scriptint_size_assert_witness :
    read_scriptint_size [0] 9 true = none ∧
    (read_scriptint_size [0] 8 true).isSome = true :=
  ⟨(read_scriptint_size_assert [0] 9 true).1 (by norm_num),
   (read_scriptint_size_assert [0] 8 true).2 (by norm_num)⟩

theorem and_bit31_iff (m : Nat) : m &&& 2147483648 ≠ 0 ↔ m.testBit 31 = true := by
  have h := Nat.and_two_pow m 31
  norm_num at h
  rw [h]
  cases htb : m.testBit 31 <;> simp

theorem and_bit22_iff (m : Nat) : m &&& 4194304 > 0 ↔ m.testBit 22 = true := by
  have h := Nat.and_two_pow m 22
  norm_num at h
  rw [h]
  cases htb : m.testBit 22 <;> simp

/-- C5: `from_num num` is `None` exactly when `num` is negative, exceeds
`2^32 - 1`, or has bit 31 (the disable flag) set; otherwise it is `Some`
of a lock time built from the low 16 bits: time in 512-second units when
bit 22 (the type flag) is set, block height otherwise.  In particular
`from_num 0x80000005 = None`, `from_num 0x00400005` is a time lock of 5
intervals and `from_num 5` is a height lock of 5. -/
theorem from_num_spec : ∀ num : Int,
    (from_num num = none ↔ (num < 0 ∨ 4294967295 < num ∨ num.toNat.testBit 31 = true)) ∧
    (0 ≤ num → num ≤ 4294967295 → num.toNat.testBit 31 = false →
      from_num num = some (if num.toNat.testBit 22 = true then LockTime.time (num.toNat % 65536)
        else LockTime.blocks (num.toNat % 65536))) ∧
    from_num 2147483653 = none ∧
    from_num 4194309 = some (LockTime.time 5) ∧
    from_num 5 = some (LockTime.blocks 5) := by
  intro num
  refine ⟨?_, ?_, by decide, by decide, by decide⟩
  · rw [from_num]
    by_cases hr : 0 ≤ num ∧ num ≤ 4294967295
    · rw [if_pos hr]
      by_cases h31c : num.toNat &&& 2147483648 ≠ 0
      · rw [if_pos h31c]
        constructor
        · intro _
          exact Or.inr (Or.inr ((and_bit31_iff num.toNat).mp h31c))
        · intro _
          rfl
      · rw [if_neg h31c]
        push_neg at h31c
        have hbit : num.toNat.testBit 31 = false := by
          cases htb : num.toNat.testBit 31 with
          | false => rfl
          | true => exact absurd ((and_bit31_iff num.toNat).mpr htb) (by omega)
        constructor
        · intro h
          split at h <;> simp at h
        · intro hdisj
          rcases hdisj with h | h | h
          · omega
          · omega
          · rw [hbit] at h
            simp at h
    · rw [if_neg hr]
      constructor
      · intro _
        by_cases hn : num < 0
        · exact Or.inl hn
        · exact Or.inr (Or.inl (by omega))
      · intro _
        rfl
  · intro hge hle hbitF
    rw [from_num, if_pos ⟨hge, hle⟩]
    have h31c : ¬(num.toNat &&& 2147483648 ≠ 0) := by
      intro hc
      rw [(and_bit31_iff num.toNat).mp hc] at hbitF
      simp at hbitF
    rw [if_neg h31c]
    by_cases h22c : num.toNat &&& 4194304 > 0
    · rw [if_pos h22c]
      have h' : num.toNat.testBit 22 = true := (and_bit22_iff num.toNat).mp h22c
      rw [h']
      simp
    · rw [if_neg h22c]
      have h' : num.toNat.testBit 22 = false := by
        cases htb : num.toNat.testBit 22 with
        | false => rfl
        | true => exact absurd ((and_bit22_iff num.toNat).mpr htb) h22c
      rw [h']
      simp

/-- C5 witness: the characterization applied at the concrete input 5. -/
theorem from_num_spec_witness :
    from_num 5 = some (LockTime.blocks (5 % 65536)) := by
  have h := (from_num_spec 5).2.1 (by norm_num) (by norm_num) (by decide)
  rw [h]
  decide

theorem isPrefixOf_cons_cons (a b : Char) (as bs : List Char) :
    (a :: as).isPrefixOf (b :: bs) = (a == b && as.isPrefixOf bs) := rfl

theorem isPrefixOf_cons_nil (a : Char) (as : List Char) :
    (a :: as).isPrefixOf ([] : List Char) = false := rfl

theorem nil_isPrefixOf_any (bs : List Char) :
    ([] : List Char).isPrefixOf bs = true := by
  cases bs <;> rfl

theorem sharp_pre_iff (c : Char) (t : List Char) :
    (['#'] : List Char).isPrefixOf (c :: t) = true ↔ c = '#' := by
  rw [isPrefixOf_cons_cons, nil_isPrefixOf_any, Bool.and_true, beq_iff_eq]
  exact eq_comm

theorem slash2_pre_iff (c : Char) (t : List Char) :
    (['/', '/'] : List Char).isPrefixOf (c :: t) = true ↔
      (c = '/' ∧ t.head? = some '/') := by
  cases t with
  | nil =>
    rw [isPrefixOf_cons_cons, isPrefixOf_cons_nil]
    simp
  | cons d t' =>
    rw [isPrefixOf_cons_cons, isPrefixOf_cons_cons, nil_isPrefixOf_any]
    simp only [Bool.and_true, Bool.and_eq_true, beq_iff_eq, List.head?_cons, Option.some.injEq]
    constructor
    · rintro ⟨x, y⟩
      exact ⟨x.symm, y.symm⟩
    · rintro ⟨x, y⟩
      exact ⟨x.symm, y.symm⟩

theorem strip_comments_take (s : List Char) :
    beforeMarker ['/', '/'] (beforeMarker ['#'] s) = spec_line_content s := by
  rw [spec_line_content]
  induction s with
  | nil => rfl
  | cons c rest ih =>
    by_cases hsharp : c = '#'
    · subst hsharp
      have h1 : (['#'] : List Char).isPrefixOf ('#' :: rest) = true :=
        (sharp_pre_iff _ _).mpr rfl
      simp [beforeMarker, firstIdxOf, h1]
    · have h1 : (['#'] : List Char).isPrefixOf (c :: rest) = false := by
        rw [Bool.eq_false_iff]
        intro hcon
        exact hsharp ((sharp_pre_iff _ _).mp hcon)
      by_cases hslash : c = '/' ∧ rest.head? = some '/'
      · have h2 : (['/', '/'] : List Char).isPrefixOf (c :: rest) = true :=
          (slash2_pre_iff _ _).mpr hslash
        obtain ⟨hc, hr⟩ := hslash
        subst hc
        cases rest with
        | nil => simp at hr
        | cons d rest' =>
          have hd : d = '/' := by simpa using hr
          subst hd
          have h1' : (['#'] : List Char).isPrefixOf ('/' :: rest') = false := by
            rw [Bool.eq_false_iff]
            intro hcon
            have := (sharp_pre_iff _ _).mp hcon
            simp at this
          have h2' : (['/', '/'] : List Char).isPrefixOf
              ('/' :: '/' :: beforeMarker ['#'] rest') = true := by
            apply (slash2_pre_iff _ _).mpr
            exact ⟨rfl, rfl⟩
          simp [beforeMarker, firstIdxOf, h1, h1', h2, h2']
      · have h2 : (['/', '/'] : List Char).isPrefixOf (c :: rest) = false := by
          rw [Bool.eq_false_iff]
          intro hcon
          exact hslash ((slash2_pre_iff _ _).mp hcon)
        have h2' : (['/', '/'] : List Char).isPrefixOf (c :: beforeMarker ['#'] rest) = false := by
          rw [Bool.eq_false_iff]
          intro hcon
          obtain ⟨hc, hh⟩ := (slash2_pre_iff _ _).mp hcon
          apply hslash
          refine ⟨hc, ?_⟩
          cases rest with
          | nil => simp [beforeMarker] at hh
          | cons d rest' =>
            by_cases hd : (['#'] : List Char).isPrefixOf (d :: rest') = true
            · rw [beforeMarker] at hh
              simp only [hd, if_true] at hh
              simp at hh
            · rw [beforeMarker] at hh
              simp only [Bool.not_eq_true] at hd
              simp only [hd] at hh
              simp at hh
              simp [hh]
        rw [beforeMarker]
        simp only [h1, Bool.false_eq_true, if_false]
        rw [beforeMarker]
        simp only [h2', Bool.false_eq_true, if_false]
        rw [firstIdxOf, firstIdxOf]
        simp only [h1, h2, Bool.false_eq_true, if_false]
        rw [ih]
        rw [show min (1 + firstIdxOf ['#'] rest) (1 + firstIdxOf ['/', '/'] rest)
          = (min (firstIdxOf ['#'] rest) (firstIdxOf ['/', '/'] rest)) + 1 from by omega]
        rw [List.take_succ_cons]

/-- C8: the word iterator yields, for each line, the whitespace-separated
words of the prefix of that line before the first `#` and the first `//`
(whichever occurs first), paired with zero-based `(line, word)` positions
where the word index restarts on each line; lines whose remaining
content is empty yield no words. -/
theorem iter_words_spec_eq : ∀ ls : List (List Char),
    (iter_words ls = ls.enum.flatMap (fun p =>
      (splitWs (spec_line_content p.2)).enum.map (fun q => ((p.1, q.1), q.2)))) ∧
    splitWs ([] : List Char) = [] := by
  intro ls
  refine ⟨?_, rfl⟩
  simp only [iter_words, line_words, strip_comments_take]

/-- C6: when `parse_asm` resolves a word to a byte-push or push-data
opcode and the next word is valid hex of length `L`, it derives the
minimal push opcode for `L` (direct small push below the PUSHDATA1
threshold, then PUSHDATA1/2/4 by range, `PushExceedsMaxSize` at the data
token beyond `2^32 - 1`); a resolved opcode differing from that minimal
opcode fails with `NonMinimalBytePush` at the opcode token.  In
particular `"OP_PUSHDATA1 00"` fails with `NonMinimalBytePush` at
position `(0, 0)`. -/
theorem parse_asm_minimal_push :
    (∀ (pos next : Nat × Nat) (word push : List Char) (ws2 : List ((Nat × Nat) × List Char))
      (script : List Nat) (op : Nat) (buf : List Nat),
      word ≠ "OP_0".toList →
      from_str word = some op →
      (is_push_bytes op || is_push_data op) = true →
      hexDecode push = some buf →
      ((4294967296 ≤ buf.length →
        parse_go ((pos, word) :: (next, push) :: ws2) script
          = Except.error ⟨next, AsmParseErrorKind.PushExceedsMaxSize⟩) ∧
      (buf.length < 4294967296 →
        op ≠ (if buf.length < 76 then buf.length
              else if buf.length < 256 then 76
              else if buf.length < 65536 then 77 else 78) →
        parse_go ((pos, word) :: (next, push) :: ws2) script
          = Except.error ⟨pos, AsmParseErrorKind.NonMinimalBytePush⟩))) ∧
    parse_asm ["OP_PUSHDATA1 00".toList]
      = Except.error ⟨(0, 0), AsmParseErrorKind.NonMinimalBytePush⟩ := by
  refine ⟨?_, rfl⟩
  intro pos next word push ws2 script op buf hw0 hop hpush hhex
  constructor
  · intro hbig
    simp only [parse_go]
    rw [if_neg hw0]
    simp only [hop, hpush, hhex, if_true]
    rw [if_neg (by omega)]
  · intro hsmall hne
    simp only [parse_go]
    rw [if_neg hw0]
    simp only [hop, hpush, hhex, if_true]
    rw [if_pos hsmall, if_pos hne]

/-- C6 witness: the general minimal-push rejection applied to the
tokenized form of `"OP_PUSHDATA1 00"`. -/
theorem parse_asm_minimal_push_witness :
    parse_go [((0, 0), "OP_PUSHDATA1".toList), ((0, 1), "00".toList)] []
      = Except.error ⟨(0, 0), AsmParseErrorKind.NonMinimalBytePush⟩ :=
  (parse_asm_minimal_push.1 (0, 0) (0, 1) ("OP_PUSHDATA1".toList) ("00".toList) [] [] 76 [0]
    (by decide) (by decide) (by decide) (by decide)).2 (by decide) (by decide)

/-- C7: a word that is not a known opcode mnemonic is stripped of one
pair of angle brackets, tried as a signed 64-bit decimal integer
(integer push on success), then stripped of a `0x` prefix and tried as
strict hex (data push on success); `UnknownInstruction` at that word's
position only when all of these fail.  Consequently `"<5>"` assembles
identically to `"5"` and `"deadbeefgg"` fails with
`UnknownInstruction`. -/
theorem parse_asm_fallback :
    (∀ (pos : Nat × Nat) (word : List Char) (ws : List ((Nat × Nat) × List Char))
       (script : List Nat),
      word ≠ "OP_0".toList →
      from_str word = none →
      ((∀ i : Int, parse_i64 (stripAngle word) = some i →
          parse_go ((pos, word) :: ws) script = parse_go ws (script ++ push_int_enc i)) ∧
       (parse_i64 (stripAngle word) = none →
          hexDecode (strip0x (stripAngle word)) = none →
          parse_go ((pos, word) :: ws) script
            = Except.error ⟨pos, AsmParseErrorKind.UnknownInstruction⟩) ∧
       (∀ buf : List Nat, parse_i64 (stripAngle word) = none →
          hexDecode (strip0x (stripAngle word)) = some buf → buf.length ≤ 4294967295 →
          parse_go ((pos, word) :: ws) script = parse_go ws (script ++ push_slice_enc buf)))) ∧
    parse_asm ["<5>".toList] = parse_asm ["5".toList] ∧
    parse_asm ["deadbeefgg".toList]
      = Except.error ⟨(0, 0), AsmParseErrorKind.UnknownInstruction⟩ := by
  refine ⟨?_, rfl, rfl⟩
  intro pos word ws script hw0 hop
  refine ⟨?_, ?_, ?_⟩
  · intro i hi
    simp only [parse_go]
    rw [if_neg hw0]
    simp only [hop, hi]
  · intro hi hhex
    simp only [parse_go]
    rw [if_neg hw0]
    simp only [hop, hi, hhex]
  · intro buf hi hhex hlen
    simp only [parse_go]
    rw [if_neg hw0]
    simp only [hop, hi, hhex]
    rw [if_pos hlen]

/-- C7 witness: the fallback order applied to the unknown word `"zz"`,
which fails decimal and hex parsing and is rejected with
`UnknownInstruction` at its position. -/
theorem parse_asm_fallback_witness :
    parse_go [((0, 0), "zz".toList)] []
      = Except.error ⟨(0, 0), AsmParseErrorKind.UnknownInstruction⟩ :=
  (parse_asm_fallback.1 (0, 0) ("zz".toList) [] [] (by decide) (by decide)).2.1
    (by decide) (by decide)

/-- C10: the words `"<>"` and `"0x"` both strip to the empty string,
which decodes as zero hex bytes and is emitted as an empty data push:
both assemble to the single byte `0x00`, the same output as `"OP_0"`,
rather than failing with `UnknownInstruction`. -/
theorem parse_asm_empty_pushes :
    parse_asm ["<>".toList] = Except.ok [0] ∧
    parse_asm ["0x".toList] = Except.ok [0] ∧
    parse_asm ["OP_0".toList] = Except.ok [0] ∧
    parse_asm ["<>".toList] = parse_asm ["OP_0".toList] ∧
    parse_asm ["0x".toList] = parse_asm ["OP_0".toList] :=
  ⟨rfl, rfl, rfl, rfl, rfl⟩

end ScriptExec
